import Mathlib

/-!
Shallow embedding of the retry-scheduling engine of `go-schroedinger`
(`src/schroedinger.go`) and verification of the specification's claims
about it.

Conventions of the embedding:
* Go `int` is modelled as `Int`; Go strings as `String` (with helper
  functions mirroring the `strings` package operations the source uses).
* The external test runner is modelled by a boolean oracle: `passes k`
  is the pass/fail status of the `k`-th process invocation performed by
  the enclosing loop.  Captured process output is passed in explicitly
  where the source inspects it.
* Channel-based concurrency is modelled by an explicit arrival order:
  an `order : List Nat` permutation describes the order in which the
  per-goroutine results are received from the channel.
* `log.Fatalf` (process abort) is modelled as a distinguished
  `Outcome.fatalDiagnostic` constructor, distinct from an ordinary
  test-exhaustion failure (`Outcome.err`) and from success.
-/

namespace Schroedinger

/-- Go `strings.Contains` on character lists: `sub` occurs as a
contiguous substring of `s` (the empty substring always matches). -/
def containsSub (s sub : List Char) : Bool :=
  match s with
  | [] => sub.isEmpty
  | _ :: rest => sub.isPrefixOf s || containsSub rest sub

/-- Go `strings.Contains`. -/
def strContains (s sub : String) : Bool :=
  containsSub s.data sub.data

/-- Go `strings.Split` with a single-character separator (the source
only splits on `":"`, `"("` and `","`). -/
def splitChar (c : Char) : List Char → List (List Char)
  | [] => [[]]
  | a :: rest =>
    if a == c then [] :: splitChar c rest
    else
      match splitChar c rest with
      | [] => [[a]]
      | h :: t => (a :: h) :: t

/-- Go `strings.Trim(s, " ")` on character lists: drop leading and
trailing space characters. -/
def trimSpacesList (l : List Char) : List Char :=
  ((l.dropWhile fun a => a == ' ').reverse.dropWhile fun a => a == ' ').reverse

/-- Go `strings.TrimSuffix`: drop `suf` from the end of `s` when it is
a suffix, otherwise return `s` unchanged. -/
def trimSuffix (s suf : String) : String :=
  if suf.data.isSuffixOf s.data then
    String.mk (s.data.take (s.data.length - suf.data.length))
  else s

/-- `getNonRecursivePackageName` from the source: strip a trailing
`/...` (with `/` the path separator on this platform) and then a
trailing `...`. -/
def getNonRecursivePackageName (s : String) : String :=
  trimSuffix (trimSuffix s "/...") "..."

/-- `parseMatchList` from the source: the empty string yields no
patterns; otherwise trim spaces and split on commas. -/
def parseMatchList (list : String) : List String :=
  if list.data.length = 0 then []
  else (splitChar ',' (trimSpacesList list.data)).map fun l => String.mk l

/-- `Case` from the source: a declared sub-case of a test group, with
its optional per-case trial override (0 meaning unset). -/
structure Case where
  name : String
  trialsDone : Int
  trialsAllowed : Int
deriving DecidableEq

/-- `Test` from the source: a schedulable target (a test group,
optionally carrying declared sub-cases). -/
structure Test where
  name : String
  anyFailing : Bool
  trialsDone : Int
  trialsAllowed : Int
  cases : List Case
deriving DecidableEq

/-- `Test.getCase` from the source: first declared case with the given
name, if any. -/
def Test.getCase (t : Test) (name : String) : Option Case :=
  t.cases.find? fun c => c.name == name

/-- `Test.getTrialsAllowed` from the source: the target's own non-zero
override, else the global default (`config.GlobalTrialsAllowed`,
passed here explicitly as `global`). -/
def getTrialsAllowed (global : Int) (t : Test) : Int :=
  if t.trialsAllowed ≠ 0 then t.trialsAllowed else global

/-- `Test.buildTestFromCase` from the source: build a case-scoped
target from a declared case.  Note the source copies the case override
(when non-zero) into the new target but never copies the group's own
`TrialsAllowed`, so an unset case override falls through to the global
default, not to the group override. -/
def buildTestFromCase (t : Test) (caseName : String) : Option Test :=
  match t.getCase caseName with
  | none => none
  | some c =>
    some { name := getNonRecursivePackageName t.name ++ " -run " ++ c.name
           anyFailing := false
           trialsDone := t.trialsDone
           trialsAllowed := if c.trialsAllowed ≠ 0 then c.trialsAllowed else 0
           cases := [] }

/-- `testMatchesList` from the source.  The blacklist loop rejects the
target when any blacklist substring occurs in the target name or in
any declared case name.  The whitelist loop's first iteration returns
in both branches (`return false` / `return true`), so only the first
whitelist substring is ever consulted, only against the target name;
the inner loop over declared cases is unreachable and therefore does
not appear in the embedding. -/
def testMatchesList (t : Test) (whites blacks : List String) : Bool :=
  if blacks.any fun m => strContains t.name m || t.cases.any fun c => strContains c.name m then
    false
  else
    match whites with
    | [] => true
    | m :: _ => strContains t.name m

/-- The message a goroutine sends on its result channel (`nil` or
`fmt.Errorf("FAIL %s", name)`), extended with the `log.Fatalf`
diagnostic abort of `tryPackageTest`, which ends the process and is
therefore distinct from both ordinary outcomes. -/
inductive Outcome where
  | ok
  | err (name : String)
  | fatalDiagnostic (pkgName : String)
deriving DecidableEq

/-- The channel receive loop forwards the first non-`nil` error. -/
def isErrOutcome : Outcome → Bool
  | Outcome.ok => false
  | _ => true

/-- `runTest` from the source: invoke the external runner once for the
target and increment its `TrialsDone` counter exactly once, whatever
the outcome.  The process's pass/fail status is the oracle `passes k`
(`k` counts this loop's invocations); its captured output is only ever
inspected by `tryPackageTest`, which receives it separately. -/
def runTest (passes : Nat → Bool) (k : Nat) (t : Test) : Test × Bool :=
  ({ t with trialsDone := t.trialsDone + 1 }, passes k)

/-- `tryTestCase` from the source: the case retry loop.  While
`TrialsDone < getTrialsAllowed()` (re-evaluated each iteration),
run the test; on pass, send `nil` (success) immediately; on fail,
loop.  Falling out of the loop sends `FAIL <name>` (exhaustion).
(`runTest` is pure here, so the source's single `o, e := runTest(t)`
call appears textually twice with identical value.) -/
def tryTestCase (global : Int) (passes : Nat → Bool) (k : Nat) (t : Test) : Test × Outcome :=
  if h : t.trialsDone < getTrialsAllowed global t then
    if (runTest passes k t).2 then ((runTest passes k t).1, Outcome.ok)
    else tryTestCase global passes (k + 1) (runTest passes k t).1
  else (t, Outcome.err t.name)
termination_by (getTrialsAllowed global t - t.trialsDone).toNat
decreasing_by
  simp only [runTest, getTrialsAllowed] at h ⊢
  split at h <;> split <;> omega

/-- The line marker `--- FAIL:` grepped for by `grepFailures`. -/
def failMarker : String := "--- FAIL:"

/-- The per-line extraction step of `grepFailures`:
`strings.Split(text, ":")[1]`, then `strings.Split(·, "(")[0]`, then
`strings.Trim(·, " ")`.  The index-1 access is safe because the caller
only reaches this on lines containing `--- FAIL:` (hence a colon); the
`getD` defaults model the in-bounds accesses. -/
def grepLineName (text : String) : String :=
  let step1 := splitChar ':' text.data
  let step2 := splitChar '(' (step1.getD 1 [])
  String.mk (trimSpacesList (step2.getD 0 []))

/-- `grepFailures` from the source, with the scanner's line splitting
factored out: scan the output lines in order, ignore lines without the
failure marker, and append the extracted sub-case name of each marker
line. -/
def grepFailures (lines : List String) : List String :=
  lines.foldl
    (fun fails text =>
      if strContains text failMarker then fails ++ [grepLineName text] else fails)
    []

/-- The discovered-case target constructed by `tryPackageTest` for a
failing sub-case name: `TrialsDone` starts at 1, accounting for the
group's own failing attempt.  (The source also mentions a `Pkg` field
and a `pkg` helper that are declared nowhere in the file; they do not
exist on the `Test` struct, so only the fields that do are modelled.) -/
def mkDiscoveredTest (f : String) : Test :=
  { name := f
    anyFailing := false
    trialsDone := 1
    trialsAllowed := 0
    cases := [] }

/-- The fan-out `go tryTestCase(f, pc)` of `tryPackageTest`: each
discovered test gets its own retry loop, with `passes i` the pass/fail
oracle of the `i`-th goroutine's process invocations.  Only the
channel message (the loop's outcome) is observed by the parent. -/
def caseResults (global : Int) (passes : Nat → Nat → Bool) : Nat → List Test → List Outcome
  | _, [] => []
  | i, ft :: rest =>
    (tryTestCase global (passes i) 0 ft).2 :: caseResults global passes (i + 1) rest

/-- `tryPackageTest` from the source: run the group target exactly
once; on pass, send success.  On fail, grep the captured output
(`groupOut`) for failing sub-case names; zero names is the
`log.Fatalf` diagnostic abort.  Otherwise spawn one retry loop per
discovered name (duplicates included) and drain the channel, in
arrival order `order` (a permutation of the goroutine indices),
forwarding the first error received, else success. -/
def tryPackageTest (global : Int) (passes : Nat → Nat → Bool) (groupPasses : Bool)
    (groupOut : List String) (order : List Nat) (t : Test) : Test × Outcome :=
  let r := runTest (fun _ => groupPasses) 0 t
  if r.2 then (r.1, Outcome.ok)
  else
    let fails := grepFailures groupOut
    if fails.length = 0 then (r.1, Outcome.fatalDiagnostic (getNonRecursivePackageName t.name))
    else
      let failingTests := fails.map mkDiscoveredTest
      let results := caseResults global passes 0 failingTests
      let arrived := order.filterMap fun i => results.get? i
      match arrived.find? isErrOutcome with
      | some e => (r.1, e)
      | none => (r.1, Outcome.ok)

/-- `tryTest` from the source: dispatch on `len(t.Cases) != 0` — a
target with declared sub-cases goes to the case retry loop (run on the
whole target itself), a target without goes to group reconciliation. -/
def tryTest (global : Int) (casePasses : Nat → Bool) (passes : Nat → Nat → Bool)
    (groupPasses : Bool) (groupOut : List String) (order : List Nat) (t : Test) :
    Test × Outcome :=
  if t.cases.length ≠ 0 then tryTestCase global casePasses 0 t
  else tryPackageTest global passes groupPasses groupOut order t

/-- The result of `run`'s initial validation step. -/
inductive RunStart where
  | configError (msg : String)
  | started (globalTrialsAllowed : Int)
deriving DecidableEq

/-- The validation at the top of `run`: the configured global trial
count is rejected exactly when it equals zero (`if trialsN == 0`);
otherwise it is installed as `config.GlobalTrialsAllowed` and the run
proceeds to filtering and execution. -/
def runValidateTrials (trialsN : Int) : RunStart :=
  if trialsN = 0 then
    RunStart.configError ("trials allowed must be >0, got: " ++ toString trialsN)
  else RunStart.started trialsN

/-- `Config` from the source. -/
structure Config where
  globalTrialsAllowed : Int
  tests : List Test

/-- `setConfigFromFile` from the source: open the file, read into the
buffer `var b []byte` — a nil slice, so `file.Read(b)` reads
`min(len(b), len(file)) = 0` bytes and returns no error — and hand `b`
to `yaml.Unmarshal` (modelled by the `unmarshal` parameter).  The
file's `contents` therefore never reach the parser. -/
def setConfigFromFile (unmarshal : List UInt8 → Except String Config)
    (contents : List UInt8) : Except String Config :=
  let b : List UInt8 := []
  let b := contents.take b.length
  unmarshal b

/-! ## Helper lemmas -/

/-- The resolved budget depends only on the `trialsAllowed` field. -/
theorem getTrialsAllowed_of_eq {t₁ t₂ : Test} (g : Int)
    (h : t₁.trialsAllowed = t₂.trialsAllowed) :
    getTrialsAllowed g t₁ = getTrialsAllowed g t₂ := by
  simp [getTrialsAllowed, h]

/-- Structural invariants of the case retry loop: the loop never
changes the target's name or override, never decreases `trialsDone`,
its outcome is success or exhaustion naming the target (and exhaustion
only once the counter has reached the budget), and it never pushes the
counter past a budget it started at or below. -/
theorem tryTestCase_invariants (global : Int) (passes : Nat → Bool) :
    ∀ (k : Nat) (t : Test),
      (tryTestCase global passes k t).1.trialsAllowed = t.trialsAllowed ∧
      (tryTestCase global passes k t).1.name = t.name ∧
      t.trialsDone ≤ (tryTestCase global passes k t).1.trialsDone ∧
      ((tryTestCase global passes k t).2 = Outcome.ok ∨
        ((tryTestCase global passes k t).2 = Outcome.err t.name ∧
          getTrialsAllowed global t ≤ (tryTestCase global passes k t).1.trialsDone)) ∧
      (t.trialsDone ≤ getTrialsAllowed global t →
        (tryTestCase global passes k t).1.trialsDone ≤ getTrialsAllowed global t) := by
  intro k t
  induction k, t using tryTestCase.induct global passes with
  | case1 k t hlt hr =>
    simp only [runTest] at hr
    rw [tryTestCase, dif_pos hlt]
    simp only [runTest]
    rw [if_pos hr]
    refine ⟨rfl, rfl, ?_, Or.inl rfl, ?_⟩
    · show t.trialsDone ≤ t.trialsDone + 1
      omega
    · intro _
      show t.trialsDone + 1 ≤ getTrialsAllowed global t
      omega
  | case2 k t hlt hr ih =>
    simp only [runTest] at hr ih
    rw [tryTestCase, dif_pos hlt]
    simp only [runTest]
    rw [if_neg hr]
    obtain ⟨ha, hn, hd, ho, hb⟩ := ih
    have heq : getTrialsAllowed global ({ t with trialsDone := t.trialsDone + 1 } : Test) =
        getTrialsAllowed global t := getTrialsAllowed_of_eq global rfl
    rw [heq] at ho hb
    refine ⟨ha, hn, by omega, ho, fun _ => hb (by omega)⟩
  | case3 k t hlt =>
    rw [tryTestCase, dif_neg hlt]
    exact ⟨rfl, rfl, le_refl _,
      Or.inr ⟨rfl, by show getTrialsAllowed global t ≤ t.trialsDone; omega⟩, fun h => h⟩

/-- A successful `find?` splits the list at the found element, with
everything before it failing the predicate. -/
theorem find?_eq_some_split {α : Type} (p : α → Bool) :
    ∀ (l : List α) (a : α), l.find? p = some a →
      ∃ pre post, l = pre ++ a :: post ∧ ∀ x ∈ pre, p x = false := by
  intro l
  induction l with
  | nil => intro a h; simp at h
  | cons b tl ih =>
    intro a h
    by_cases hp : p b = true
    · rw [List.find?_cons_of_pos _ hp] at h
      obtain rfl : b = a := by simpa using h
      exact ⟨[], tl, rfl, by simp⟩
    · rw [List.find?_cons_of_neg _ (by simpa using hp)] at h
      obtain ⟨pre, post, hsplit, hpre⟩ := ih a h
      refine ⟨b :: pre, post, by simp [hsplit], ?_⟩
      intro x hx
      rcases List.mem_cons.mp hx with rfl | hx
      · simpa using hp
      · exact hpre x hx

/-- Indexing a list by `range` of its length recovers the list. -/
theorem filterMap_get_range {α : Type} :
    ∀ l : List α, (List.range l.length).filterMap (fun i => l.get? i) = l := by
  intro l
  induction l with
  | nil => rfl
  | cons a tl ih =>
    rw [List.length_cons, List.range_succ_eq_map, List.filterMap_cons]
    simp only [List.get?_cons_zero, List.filterMap_map]
    have : (fun i => (a :: tl).get? i) ∘ Nat.succ = fun i => tl.get? i := by
      funext i; simp
    rw [this, ih]

/-- Receiving along any permutation `order` of the goroutine indices
yields a permutation of the goroutines' results. -/
theorem arrived_perm {α : Type} {results : List α} {order : List Nat}
    (h : order.Perm (List.range results.length)) :
    (order.filterMap fun i => results.get? i).Perm results := by
  have := h.filterMap (fun i => results.get? i)
  rwa [filterMap_get_range] at this

/-- One result per spawned retry loop. -/
theorem caseResults_length (global : Int) (passes : Nat → Nat → Bool) :
    ∀ (i : Nat) (l : List Test), (caseResults global passes i l).length = l.length := by
  intro i l
  induction l generalizing i with
  | nil => rfl
  | cons ft rest ih => simp [caseResults, ih]

/-- Every channel message is the outcome of some spawned retry loop on
some spawned target. -/
theorem mem_caseResults (global : Int) (passes : Nat → Nat → Bool) :
    ∀ {i : Nat} {l : List Test} {o : Outcome}, o ∈ caseResults global passes i l →
      ∃ j ft, ft ∈ l ∧ o = (tryTestCase global (passes j) 0 ft).2 := by
  intro i l
  induction l generalizing i with
  | nil => intro o h; simp [caseResults] at h
  | cons ft rest ih =>
    intro o h
    rw [caseResults] at h
    rcases List.mem_cons.mp h with rfl | h
    · exact ⟨i, ft, List.mem_cons_self .., rfl⟩
    · obtain ⟨j, ft', hmem, ho⟩ := ih h
      exact ⟨j, ft', List.mem_cons_of_mem _ hmem, ho⟩

/-! ## Claim theorems -/

/-- Claim C2 (counterexample): a case target with resolved budget 1
whose first attempt passes terminates with trials-done equal to
trials-allowed and yet with outcome success, not exhaustion; this
refutes "trials-done equals trials-allowed if and only if the loop's
outcome is exhaustion". -/
theorem tryTestCase_eq_budget_without_exhaustion :
    (tryTestCase 1 (fun _ => true) 0 ⟨"TestFlaky", false, 0, 1, []⟩).2 = Outcome.ok ∧
    (tryTestCase 1 (fun _ => true) 0 ⟨"TestFlaky", false, 0, 1, []⟩).1.trialsDone =
      getTrialsAllowed 1 ⟨"TestFlaky", false, 0, 1, []⟩ := by
  constructor <;> simp [tryTestCase, runTest, getTrialsAllowed]

/-- Claim C2 (amended): for every target the case retry loop runs on,
started with trials-done at most trials-allowed, at the moment the
loop terminates trials-done is at most trials-allowed, and if the
outcome is exhaustion then trials-done equals trials-allowed.  The
converse direction of the original claim fails: a pass on the final
budgeted attempt also terminates with trials-done equal to
trials-allowed, with outcome success. -/
theorem tryTestCase_budget_invariant (global : Int) (passes : Nat → Bool) (k : Nat) (t : Test)
    (h : t.trialsDone ≤ getTrialsAllowed global t) :
    (tryTestCase global passes k t).1.trialsDone ≤ getTrialsAllowed global t ∧
    ∀ n, (tryTestCase global passes k t).2 = Outcome.err n →
      (tryTestCase global passes k t).1.trialsDone = getTrialsAllowed global t := by
  obtain ⟨-, -, -, ho, hb⟩ := tryTestCase_invariants global passes k t
  refine ⟨hb h, ?_⟩
  intro n hn
  rcases ho with ho | ⟨-, hge⟩
  · rw [ho] at hn; cases hn
  · have := hb h; omega

/-- Witness for `tryTestCase_budget_invariant` at a concrete target
with budget 2 and always-failing runs. -/
theorem tryTestCase_budget_invariant_witness :
    (⟨"TestFlaky", false, 0, 2, []⟩ : Test).trialsDone ≤
      getTrialsAllowed 1 ⟨"TestFlaky", false, 0, 2, []⟩ ∧
    ((tryTestCase 1 (fun _ => false) 0 ⟨"TestFlaky", false, 0, 2, []⟩).1.trialsDone ≤
      getTrialsAllowed 1 ⟨"TestFlaky", false, 0, 2, []⟩ ∧
    ∀ n, (tryTestCase 1 (fun _ => false) 0 ⟨"TestFlaky", false, 0, 2, []⟩).2 = Outcome.err n →
      (tryTestCase 1 (fun _ => false) 0 ⟨"TestFlaky", false, 0, 2, []⟩).1.trialsDone =
        getTrialsAllowed 1 ⟨"TestFlaky", false, 0, 2, []⟩) :=
  ⟨by decide, tryTestCase_budget_invariant 1 (fun _ => false) 0 _ (by decide)⟩

/-- Claim C9: stop-on-first-success.  If the first `j` attempts fail,
attempt `j + 1` passes, and budget remains at each of those attempts,
the loop performs exactly `j + 1` executions (the counter advances by
exactly `j + 1`) and reports success immediately, regardless of any
remaining budget. -/
theorem tryTestCase_stop_on_first_success (global : Int) (passes : Nat → Bool) :
    ∀ (j k : Nat) (t : Test), passes (k + j) = true → (∀ i, i < j → passes (k + i) = false) →
      t.trialsDone + (j : Int) < getTrialsAllowed global t →
      tryTestCase global passes k t =
        ({ t with trialsDone := t.trialsDone + (j : Int) + 1 }, Outcome.ok) := by
  intro j
  induction j with
  | zero =>
    intro k t hfirst _ hbudget
    have hlt : t.trialsDone < getTrialsAllowed global t := by push_cast at hbudget; omega
    rw [tryTestCase, dif_pos hlt]
    simp only [runTest]
    rw [show k + 0 = k from rfl] at hfirst
    rw [if_pos hfirst]
    exact congrArg (fun d => (({ t with trialsDone := d } : Test), Outcome.ok))
      (by push_cast; ring)
  | succ j ih =>
    intro k t hfirst hbefore hbudget
    have hlt : t.trialsDone < getTrialsAllowed global t := by push_cast at hbudget; omega
    have h0 : passes k = false := by simpa using hbefore 0 (Nat.succ_pos j)
    rw [tryTestCase, dif_pos hlt]
    simp only [runTest]
    rw [if_neg (by rw [h0]; exact Bool.false_ne_true)]
    have hfirst' : passes (k + 1 + j) = true := by
      rw [show k + 1 + j = k + (j + 1) from by omega]; exact hfirst
    have hbefore' : ∀ i, i < j → passes (k + 1 + i) = false := by
      intro i hi
      rw [show k + 1 + i = k + (i + 1) from by omega]
      exact hbefore (i + 1) (by omega)
    have heq : getTrialsAllowed global ({ t with trialsDone := t.trialsDone + 1 } : Test) =
        getTrialsAllowed global t := getTrialsAllowed_of_eq global rfl
    have e2 : ({ t with trialsDone := t.trialsDone + 1 } : Test).trialsDone =
        t.trialsDone + 1 := rfl
    have hbudget' : ({ t with trialsDone := t.trialsDone + 1 } : Test).trialsDone + (j : Int) <
        getTrialsAllowed global ({ t with trialsDone := t.trialsDone + 1 } : Test) := by
      rw [e2, heq]
      push_cast at hbudget
      omega
    rw [ih (k + 1) _ hfirst' hbefore' hbudget']
    exact congrArg (fun d => (({ t with trialsDone := d } : Test), Outcome.ok))
      (by push_cast; ring)

/-- Witness for `tryTestCase_stop_on_first_success`: a case that fails
its first attempt and passes its second, with 5 allowed, stops after
exactly 2 executions. -/
theorem tryTestCase_stop_on_first_success_witness :
    (fun n => n == 1) (0 + 1) = true ∧
    (∀ i, i < 1 → (fun n => n == 1) (0 + i) = false) ∧
    (⟨"TestCore", false, 0, 5, []⟩ : Test).trialsDone + ((1 : Nat) : Int) <
      getTrialsAllowed 1 ⟨"TestCore", false, 0, 5, []⟩ ∧
    tryTestCase 1 (fun n => n == 1) 0 ⟨"TestCore", false, 0, 5, []⟩ =
      ({ (⟨"TestCore", false, 0, 5, []⟩ : Test) with
          trialsDone := (⟨"TestCore", false, 0, 5, []⟩ : Test).trialsDone + ((1 : Nat) : Int) + 1 },
        Outcome.ok) :=
  ⟨by decide, by decide, by decide,
    tryTestCase_stop_on_first_success 1 (fun n => n == 1) 1 0 _ (by decide) (by decide) (by decide)⟩

/-- Claim C1 (counterexample): with a group-level override of 5, an
unset (zero) case override, and a global default of 1, the case-scoped
target built by `buildTestFromCase` resolves its budget to the global
default 1 — not to the group override 5 required by the claimed
three-level precedence — because `buildTestFromCase` never copies the
group's own `TrialsAllowed` into the case-scoped target. -/
theorem buildTestFromCase_drops_group_override :
    (buildTestFromCase ⟨"pkg/x", false, 0, 5, [⟨"TestX", 0, 0⟩]⟩ "TestX").map
        (getTrialsAllowed 1) = some 1 ∧
    (buildTestFromCase ⟨"pkg/x", false, 0, 5, [⟨"TestX", 0, 0⟩]⟩ "TestX").map
        (getTrialsAllowed 1) ≠ some 5 := by
  decide

/-- Claim C1 (amended): for a case-scoped target built from a declared
case, a non-zero case override is the budget and otherwise the global
default is (the group-level override on the parent target is not
inherited and never consulted); for the target itself, a non-zero
group-level override is the budget and otherwise the global default
is.  So with case override 3, group override 5, global default 1 the
case resolves to 3, and with the case override removed it resolves to
1, not 5. -/
theorem buildTestFromCase_budget (t : Test) (caseName : String) (c : Case) (global : Int)
    (h : t.getCase caseName = some c) :
    ∃ t', buildTestFromCase t caseName = some t' ∧
      getTrialsAllowed global t' =
        (if c.trialsAllowed ≠ 0 then c.trialsAllowed else global) ∧
      getTrialsAllowed global t =
        (if t.trialsAllowed ≠ 0 then t.trialsAllowed else global) := by
  refine ⟨_, by rw [buildTestFromCase, h], ?_, rfl⟩
  by_cases hc : c.trialsAllowed = 0 <;> simp [getTrialsAllowed, hc]

/-- Witness for `buildTestFromCase_budget`: case override 3, group
override 5, global default 1 — the built case target resolves to 3. -/
theorem buildTestFromCase_budget_witness :
    (⟨"pkg/x", false, 0, 5, [⟨"TestX", 0, 3⟩]⟩ : Test).getCase "TestX" =
      some ⟨"TestX", 0, 3⟩ ∧
    ∃ t', buildTestFromCase ⟨"pkg/x", false, 0, 5, [⟨"TestX", 0, 3⟩]⟩ "TestX" = some t' ∧
      getTrialsAllowed 1 t' =
        (if (⟨"TestX", 0, 3⟩ : Case).trialsAllowed ≠ 0
          then (⟨"TestX", 0, 3⟩ : Case).trialsAllowed else 1) ∧
      getTrialsAllowed 1 ⟨"pkg/x", false, 0, 5, [⟨"TestX", 0, 3⟩]⟩ =
        (if (⟨"pkg/x", false, 0, 5, [⟨"TestX", 0, 3⟩]⟩ : Test).trialsAllowed ≠ 0
          then (⟨"pkg/x", false, 0, 5, [⟨"TestX", 0, 3⟩]⟩ : Test).trialsAllowed else 1) :=
  ⟨by decide, buildTestFromCase_budget _ "TestX" _ 1 (by decide)⟩

/-- Claim C3 (code bug): with whitelist `["core"]` (as produced by
`parseMatchList`) and no blacklist, a target whose declared sub-case
name contains `"core"` does not survive filtering: the source's
whitelist loop returns in both branches of its first iteration, so
only the first whitelist substring is ever tested, and only against
the target name — the sub-case loop is unreachable.  Likewise a
target name containing only the second of two whitelist substrings is
rejected. -/
theorem testMatchesList_whitelist_defect :
    testMatchesList ⟨"pkg/other", false, 0, 0, [⟨"coretest", 0, 0⟩]⟩
      (parseMatchList "core") (parseMatchList "") = false ∧
    strContains "coretest" "core" = true ∧
    testMatchesList ⟨"pkg/core", false, 0, 0, []⟩ ["x", "core"] [] = false ∧
    strContains "pkg/core" "core" = true := by
  decide

/-- Claim C7 (code bug): the validation at the top of `run` rejects
only a global trial count of exactly zero.  A negative count — also
non-positive, and excluded by the source's own error message
`"trials allowed must be >0"` — passes validation and the run
proceeds. -/
theorem runValidateTrials_accepts_negative :
    runValidateTrials (-3) = RunStart.started (-3) ∧
    (∃ msg, runValidateTrials 0 = RunStart.configError msg) ∧
    runValidateTrials 1 = RunStart.started 1 :=
  ⟨rfl, ⟨_, rfl⟩, rfl⟩

/-- Claim C10: the buffer `setConfigFromFile` hands to the YAML parser
is the nil slice `b`, into which `file.Read` can read zero bytes, so
the resulting configuration is identical for any two file contents. -/
theorem setConfigFromFile_content_independent
    (unmarshal : List UInt8 → Except String Config) (c₁ c₂ : List UInt8) :
    setConfigFromFile unmarshal c₁ = setConfigFromFile unmarshal c₂ := rfl

/-- The scanning fold of `grepFailures` appends, in order, the
extracted name of every marker line. -/
theorem grepFoldl_append :
    ∀ (lines acc : List String),
      lines.foldl
        (fun fails text =>
          if strContains text failMarker then fails ++ [grepLineName text] else fails)
        acc =
      acc ++ (lines.filter fun l => strContains l failMarker).map grepLineName := by
  intro lines
  induction lines with
  | nil => intro acc; simp
  | cons l rest ih =>
    intro acc
    rw [List.foldl_cons]
    by_cases hl : strContains l failMarker = true
    · rw [if_pos hl, ih]
      simp [List.filter_cons, hl, List.append_assoc]
    · rw [if_neg (by simp [hl]), ih]
      simp [List.filter_cons, hl]

/-- Claim C8: failure extraction returns exactly the name field
extracted from the lines containing the `--- FAIL:` marker, in order
of appearance and preserving duplicates; lines without the marker are
ignored, and marker-free output yields the empty sequence.
Instantiated on the spec's example, on marker-free output, and on
duplicate names. -/
theorem grepFailures_filter_map (lines : List String) :
    grepFailures lines =
      (lines.filter fun l => strContains l failMarker).map grepLineName ∧
    grepFailures ["=== RUN TestAlpha", "--- FAIL: TestAlpha (1.23s)",
      "some unrelated log", "--- FAIL: TestBeta (0.01s)", "FAIL"] =
      ["TestAlpha", "TestBeta"] ∧
    grepFailures ["=== RUN TestA", "--- PASS: TestA (0.01s)", "ok pkg 0.1s"] = [] ∧
    grepFailures ["--- FAIL: TestDup (0.1s)", "--- FAIL: TestDup (0.2s)"] =
      ["TestDup", "TestDup"] := by
  refine ⟨?_, by decide, by decide, by decide⟩
  rw [grepFailures, grepFoldl_append]
  simp

/-- A channel message that is not an error is the success message. -/
theorem eq_ok_of_not_isErrOutcome {o : Outcome} (h : isErrOutcome o = false) :
    o = Outcome.ok := by
  cases o <;> first | rfl | simp [isErrOutcome] at h

/-- Claim C6: when the group run fails and extraction over its
captured output yields zero sub-case names, `tryPackageTest` aborts
via `log.Fatalf`, modelled as the `fatalDiagnostic` outcome — which
is distinct both from an ordinary target-exhaustion failure and from
success. -/
theorem tryPackageTest_diagnostic_gap (global : Int) (passes : Nat → Nat → Bool)
    (groupOut : List String) (order : List Nat) (t : Test)
    (h : grepFailures groupOut = []) :
    (tryPackageTest global passes false groupOut order t).2 =
      Outcome.fatalDiagnostic (getNonRecursivePackageName t.name) ∧
    (∀ n, Outcome.fatalDiagnostic (getNonRecursivePackageName t.name) ≠ Outcome.err n) ∧
    Outcome.fatalDiagnostic (getNonRecursivePackageName t.name) ≠ Outcome.ok := by
  refine ⟨?_, fun n => by simp, by simp⟩
  simp [tryPackageTest, runTest, h]

/-- Witness for `tryPackageTest_diagnostic_gap`: build-level failure
output with no `--- FAIL:` line. -/
theorem tryPackageTest_diagnostic_gap_witness :
    grepFailures ["FAIL pkg [build failed]"] = [] ∧
    ((tryPackageTest 1 (fun _ _ => true) false ["FAIL pkg [build failed]"] []
        ⟨"pkg/x", false, 0, 0, []⟩).2 =
      Outcome.fatalDiagnostic
        (getNonRecursivePackageName (⟨"pkg/x", false, 0, 0, []⟩ : Test).name) ∧
    (∀ n, Outcome.fatalDiagnostic
        (getNonRecursivePackageName (⟨"pkg/x", false, 0, 0, []⟩ : Test).name) ≠
        Outcome.err n) ∧
    Outcome.fatalDiagnostic
        (getNonRecursivePackageName (⟨"pkg/x", false, 0, 0, []⟩ : Test).name) ≠
      Outcome.ok) :=
  ⟨by decide, tryPackageTest_diagnostic_gap 1 (fun _ _ => true) ["FAIL pkg [build failed]"]
    [] ⟨"pkg/x", false, 0, 0, []⟩ (by decide)⟩

/-- Claim C5 (counterexample): a group target that merely carries two
declared sub-cases — it is not scoped to a single named sub-case — is
driven through the case retry loop on the whole target (here
exhausting it, outcome `FAIL pkg/x`), although group reconciliation
on the same inputs would have reported success, the group run
passing.  This refutes "a group target that merely carries declared
sub-cases undergoes Group Reconciliation". -/
theorem tryTest_declared_cases_not_reconciled :
    (tryTest 1 (fun _ => false) (fun _ _ => true) true ["out"] []
        ⟨"pkg/x", false, 0, 0, [⟨"TestA", 0, 0⟩, ⟨"TestB", 0, 0⟩]⟩).2 =
      Outcome.err "pkg/x" ∧
    (tryPackageTest 1 (fun _ _ => true) true ["out"] []
        ⟨"pkg/x", false, 0, 0, [⟨"TestA", 0, 0⟩, ⟨"TestB", 0, 0⟩]⟩).2 = Outcome.ok := by
  constructor
  · rw [tryTest, if_pos (by decide)]
    simp [tryTestCase, runTest, getTrialsAllowed]
  · simp [tryPackageTest, runTest]

/-- Claim C5 (amended): the orchestrator's dispatch keys on declared
sub-cases, not on case-scoping: a surviving target carrying one or
more declared sub-cases is driven through the case retry loop applied
to the whole target, and a target carrying none through group
reconciliation. -/
theorem tryTest_dispatch (global : Int) (casePasses : Nat → Bool) (passes : Nat → Nat → Bool)
    (groupPasses : Bool) (groupOut : List String) (order : List Nat) (t : Test) :
    (t.cases ≠ [] →
      tryTest global casePasses passes groupPasses groupOut order t =
        tryTestCase global casePasses 0 t) ∧
    (t.cases = [] →
      tryTest global casePasses passes groupPasses groupOut order t =
        tryPackageTest global passes groupPasses groupOut order t) := by
  constructor
  · intro h
    rw [tryTest, if_pos (fun hc => h (List.length_eq_zero.mp hc))]
  · intro h
    rw [tryTest, if_neg (by simp [h])]

/-- Witness for `tryTest_dispatch` on a target with two declared
sub-cases. -/
theorem tryTest_dispatch_witness :
    (⟨"pkg/x", false, 0, 0, [⟨"TestA", 0, 0⟩, ⟨"TestB", 0, 0⟩]⟩ : Test).cases ≠ [] ∧
    tryTest 1 (fun _ => false) (fun _ _ => true) false ["o"] []
        ⟨"pkg/x", false, 0, 0, [⟨"TestA", 0, 0⟩, ⟨"TestB", 0, 0⟩]⟩ =
      tryTestCase 1 (fun _ => false) 0
        ⟨"pkg/x", false, 0, 0, [⟨"TestA", 0, 0⟩, ⟨"TestB", 0, 0⟩]⟩ :=
  ⟨by decide,
    (tryTest_dispatch 1 (fun _ => false) (fun _ _ => true) false ["o"] [] _).1 (by decide)⟩

/-- Claim C4: group reconciliation runs the group exactly once
(`trialsDone` advances by exactly 1 whatever the group outcome); a
passing group run is success; on failure with at least one extracted
name, one discovered case target per name is created with
`trialsDone` initialised to 1 and retried, and — for any channel
arrival order, a permutation of the spawned goroutine indices — the
group's outcome is success iff every discovered case loop resolved to
success, while an error outcome names a discovered sub-case whose
loop reported exhaustion and is the first error in arrival order,
everything received before it being a success. -/
theorem tryPackageTest_reconciliation (global : Int) (passes : Nat → Nat → Bool)
    (groupOut : List String) (order : List Nat) (t : Test)
    (hperm : order.Perm (List.range (grepFailures groupOut).length))
    (hfails : grepFailures groupOut ≠ []) :
    (∀ gp, (tryPackageTest global passes gp groupOut order t).1.trialsDone =
      t.trialsDone + 1) ∧
    (tryPackageTest global passes true groupOut order t).2 = Outcome.ok ∧
    (∀ ft ∈ (grepFailures groupOut).map mkDiscoveredTest, ft.trialsDone = 1) ∧
    ((tryPackageTest global passes false groupOut order t).2 = Outcome.ok ↔
      ∀ o ∈ caseResults global passes 0 ((grepFailures groupOut).map mkDiscoveredTest),
        o = Outcome.ok) ∧
    (∀ n, (tryPackageTest global passes false groupOut order t).2 = Outcome.err n →
      n ∈ grepFailures groupOut ∧
      Outcome.err n ∈
        caseResults global passes 0 ((grepFailures groupOut).map mkDiscoveredTest) ∧
      ∃ pre post,
        (order.filterMap fun i =>
            (caseResults global passes 0
              ((grepFailures groupOut).map mkDiscoveredTest)).get? i) =
          pre ++ Outcome.err n :: post ∧
        ∀ x ∈ pre, x = Outcome.ok) := by
  have hne : ¬(grepFailures groupOut).length = 0 :=
    fun h0 => hfails (List.length_eq_zero.mp h0)
  have hlen : (caseResults global passes 0
      ((grepFailures groupOut).map mkDiscoveredTest)).length =
      (grepFailures groupOut).length := by
    rw [caseResults_length]; exact List.length_map ..
  have hap : (order.filterMap fun i =>
      (caseResults global passes 0
        ((grepFailures groupOut).map mkDiscoveredTest)).get? i).Perm
      (caseResults global passes 0 ((grepFailures groupOut).map mkDiscoveredTest)) :=
    arrived_perm (by rw [hlen]; exact hperm)
  refine ⟨?_, ?_, ?_, ?_, ?_⟩
  · intro gp
    cases gp
    · simp only [tryPackageTest, runTest, Bool.false_eq_true, if_false, if_neg hne]
      cases hf : (order.filterMap fun i =>
          (caseResults global passes 0
            ((grepFailures groupOut).map mkDiscoveredTest)).get? i).find? isErrOutcome <;>
        simp [hf]
    · simp [tryPackageTest, runTest]
  · simp [tryPackageTest, runTest]
  · intro ft hft
    obtain ⟨f, -, rfl⟩ := List.mem_map.mp hft
    rfl
  · simp only [tryPackageTest, runTest, Bool.false_eq_true, if_false, if_neg hne]
    cases hf : (order.filterMap fun i =>
        (caseResults global passes 0
          ((grepFailures groupOut).map mkDiscoveredTest)).get? i).find? isErrOutcome with
    | none =>
      simp only [hf]
      have hall : ∀ o ∈ caseResults global passes 0
          ((grepFailures groupOut).map mkDiscoveredTest), o = Outcome.ok := by
        intro o ho
        have := List.find?_eq_none.mp hf o (hap.mem_iff.mpr ho)
        exact eq_ok_of_not_isErrOutcome (by simpa using this)
      exact ⟨fun _ => hall, fun _ => trivial⟩
    | some e =>
      simp only [hf]
      have he : isErrOutcome e = true := List.find?_some hf
      have hmem : e ∈ caseResults global passes 0
          ((grepFailures groupOut).map mkDiscoveredTest) :=
        hap.mem_iff.mp (List.mem_of_find?_eq_some hf)
      constructor
      · intro hok
        rw [hok] at he
        simp [isErrOutcome] at he
      · intro hall
        have := hall e hmem
        rw [this] at he
        simp [isErrOutcome] at he
  · intro n hn
    rw [tryPackageTest] at hn
    simp only [runTest, Bool.false_eq_true, if_false, if_neg hne] at hn
    cases hf : (order.filterMap fun i =>
        (caseResults global passes 0
          ((grepFailures groupOut).map mkDiscoveredTest)).get? i).find? isErrOutcome with
    | none =>
      rw [hf] at hn
      simp at hn
    | some e =>
      rw [hf] at hn
      simp only [Prod.mk.injEq] at hn
      obtain rfl : e = Outcome.err n := hn
      have hmem : Outcome.err n ∈ caseResults global passes 0
          ((grepFailures groupOut).map mkDiscoveredTest) :=
        hap.mem_iff.mp (List.mem_of_find?_eq_some hf)
      refine ⟨?_, hmem, ?_⟩
      · obtain ⟨j, ft, hft, ho⟩ := mem_caseResults global passes hmem
        obtain ⟨f, hfm, rfl⟩ := List.mem_map.mp hft
        obtain ⟨-, -, -, hout, -⟩ := tryTestCase_invariants global (passes j) 0
          (mkDiscoveredTest f)
        rcases hout with hout | ⟨hout, -⟩
        · rw [hout] at ho
          cases ho
        · rw [hout] at ho
          cases ho
          exact hfm
      · obtain ⟨pre, post, hsplit, hpre⟩ := find?_eq_some_split isErrOutcome _ _ hf
        exact ⟨pre, post, hsplit, fun x hx =>
          eq_ok_of_not_isErrOutcome (by simpa using hpre x hx)⟩

/-- Witness for `tryPackageTest_reconciliation`: one extracted failing
sub-case, one goroutine, arrival order `[0]`. -/
theorem tryPackageTest_reconciliation_witness :
    ([0] : List Nat).Perm
      (List.range (grepFailures ["--- FAIL: TestA (0.10s)"]).length) ∧
    grepFailures ["--- FAIL: TestA (0.10s)"] ≠ [] ∧
    ∀ gp, (tryPackageTest 2 (fun _ _ => true) gp ["--- FAIL: TestA (0.10s)"] [0]
        ⟨"pkg/x", false, 0, 0, []⟩).1.trialsDone =
      (⟨"pkg/x", false, 0, 0, []⟩ : Test).trialsDone + 1 :=
  ⟨by decide, by decide,
    (tryPackageTest_reconciliation 2 (fun _ _ => true) ["--- FAIL: TestA (0.10s)"] [0]
      ⟨"pkg/x", false, 0, 0, []⟩ (by decide) (by decide)).1⟩
/-! Sanity checks that the Go string helpers compute as the `strings`
package does on the shapes of input the source feeds them. -/

example : strContains "pkg/other" "core" = false := by decide
example : strContains "coretest" "core" = true := by decide
example : parseMatchList "" = [] := by decide
example : parseMatchList "downloader,fetcher" = ["downloader", "fetcher"] := by decide
example : parseMatchList " sync " = ["sync"] := by decide
example : getNonRecursivePackageName "pkg/x/..." = "pkg/x" := by decide
example : getNonRecursivePackageName "pkg/x" = "pkg/x" := by decide
example : (splitChar ':' "--- FAIL: TestAlpha (1.23s)".data).map String.mk =
    ["--- FAIL", " TestAlpha (1.23s)"] := by decide

end Schroedinger
